import Mathlib

/-!
Verification development for the PromptAlchemy local-persistence core.

The definitions below are a shallow embedding of the Python sources:
  * `src/core/security.py` — `SecureKeyStorage` (OS-keyring credential vault)
    and `RateLimiter` (per-provider sliding-window admission control);
  * `src/core/config.py` — `ConfigManager.get_api_key` / `set_api_key`
    (the credential resolution chain) and `ConfigManager._import_imageai_auth`
    (the one-shot import merger);
  * `src/core/history.py` — `HistoryManager` (append-only JSONL history log);
  * `src/core/projects.py` — `Project.add_tags` / `remove_tags`.

Modelling conventions:
  * the OS keyring is a partial map from password names to secrets; the two
    namespaces (`SERVICE_NAME = "PromptAlchemy"` and
    `IMAGEAI_SERVICE_NAME = "ImageAI"`) are the two map-valued fields
    `ownVault` and `imageaiVault`; a keyring exception is folded into
    `keyringAvailable = false`, matching the code which treats any keyring
    error as "not stored"/"not found";
  * Python truthiness of an optional string (`if key:`) is `optTruthy`:
    `None` and `""` are falsy;
  * wall-clock time (`time.time()`) is a rational number passed explicitly;
  * a JSONL record is a finite string-to-string dictionary (`Entry`); the
    fields the claims touch (`timestamp`) are strings in the program, and
    `json.dumps`/`json.loads` round-tripping is the identity of the model;
  * Python's stable `list.sort(key=…, reverse=True)` is modelled by the
    stable `List.insertionSort` with the reversed key comparison.
-/

/-- Python truthiness of an optional string: `None` and `""` are falsy. -/
def optTruthy : Option String → Bool
  | none => false
  | some s => !s.isEmpty

/-- Keyring password name used by `SecureKeyStorage`: `f"{provider}_api_key"`. -/
def keyName (p : String) : String := p ++ "_api_key"

/-- State touched by the credential vault and the file-based provider config:
`ownVault` is the keyring namespace `SERVICE_NAME = "PromptAlchemy"`,
`imageaiVault` the namespace `IMAGEAI_SERVICE_NAME = "ImageAI"`, and
`providersCfg p` is `config["providers"][p]["api_key"]` (`none` when the
`"api_key"` field is absent from the provider's config dict). -/
structure CredState where
  keyringAvailable : Bool
  ownVault : String → Option String
  imageaiVault : String → Option String
  providersCfg : String → Option String

/-- `SecureKeyStorage.store_key`: returns `False` when the keyring is
unavailable, otherwise `keyring.set_password(SERVICE_NAME, f"{p}_api_key", k)`
and returns `True`. -/
def storeKey (st : CredState) (p k : String) : Bool × CredState :=
  if st.keyringAvailable then
    (true, { st with ownVault := fun q => if q = keyName p then some k else st.ownVault q })
  else
    (false, st)

/-- `SecureKeyStorage.retrieve_key`: `None` when the keyring is unavailable;
otherwise try the PromptAlchemy namespace, then the ImageAI namespace, and on
an ImageAI hit re-store the key under the PromptAlchemy namespace before
returning it. -/
def retrieveKey (st : CredState) (p : String) : Option String × CredState :=
  if st.keyringAvailable then
    let k := st.ownVault (keyName p)
    if optTruthy k then
      (k, st)
    else
      let k2 := st.imageaiVault (keyName p)
      if optTruthy k2 then
        match k2 with
        | some key => (some key, (storeKey st p key).2)
        | none => (none, st)
      else
        (none, st)
  else
    (none, st)

/-- `ConfigManager.get_api_key`: keyring resolution first (which itself falls
back to the ImageAI namespace), then the file-based provider config's
`"api_key"` field, else `None`. -/
def getApiKey (st : CredState) (p : String) : Option String × CredState :=
  let r := retrieveKey st p
  if optTruthy r.1 then
    r
  else
    match r.2.providersCfg p with
    | some v => (some v, r.2)
    | none => (none, r.2)

/-- `ConfigManager.set_api_key`: attempt the keyring write first; only when it
did not succeed, write the key into the file-based provider config. -/
def setApiKey (st : CredState) (p k : String) : CredState :=
  let r := storeKey st p k
  if r.1 then
    r.2
  else
    { r.2 with providersCfg := fun q => if q = p then some k else r.2.providersCfg q }

/-- Python truthiness of an optional boolean config value
(`config.get("gcloud_auth_validated")`): only `True` is truthy. -/
def optBoolTruthy : Option Bool → Bool
  | some b => b
  | none => false

/-- The application configuration state touched by
`ConfigManager._import_imageai_auth`: the credential state plus the three
Google-Cloud auth fields of `config` (`none` = key absent from the dict). -/
structure AppConfig where
  cred : CredState
  authMode : Option String
  gcloudProjectId : Option String
  gcloudAuthValidated : Option Bool

/-- One provider's entry in the source (ImageAI) config: `apiKey` is the
`"api_key"` field of the provider's dict, `none` when absent. -/
structure ProviderCfg where
  apiKey : Option String
deriving DecidableEq

/-- The parsed source (ImageAI) config document: providers in dict iteration
order, plus the three auth fields (`none` = key absent). -/
structure ImageAIConfig where
  providers : List (String × ProviderCfg)
  authMode : Option String
  gcloudProjectId : Option String
  gcloudAuthValidated : Option Bool

/-- `auth_mode` normalization from `_import_imageai_auth`:
`"api_key"`/`"API Key"` become `"api-key"`, `"Google Cloud Account"` becomes
`"gcloud"`, anything else is kept verbatim. -/
def normalizeAuthMode (m : String) : String :=
  if m = "api_key" ∨ m = "API Key" then "api-key"
  else if m = "Google Cloud Account" then "gcloud"
  else m

/-- The per-provider body of `_import_imageai_auth`'s loop, on the credential
state it touches: call `get_api_key` (which may itself migrate an ImageAI
keyring entry), and when its result is falsy and the source dict has a truthy
`"api_key"`, call `set_api_key` with the source value. -/
def importProviderCredStep (c : CredState) (x : String × ProviderCfg) : CredState :=
  let r := getApiKey c x.1
  if optTruthy r.1 then
    r.2
  else
    match x.2.apiKey with
    | some key => if key.isEmpty then r.2 else setApiKey r.2 x.1 key
    | none => r.2

/-- The same loop body on the whole configuration: only the credential state
is touched. -/
def importProviderStep (st : AppConfig) (x : String × ProviderCfg) : AppConfig :=
  { st with cred := importProviderCredStep st.cred x }

/-- The `auth_mode` block of `_import_imageai_auth`: when the source has the
key and the local value is falsy, copy the normalized source value. -/
def importAuthMode (st : AppConfig) (src : ImageAIConfig) : AppConfig :=
  match src.authMode with
  | some am =>
      if optTruthy st.authMode then st
      else { st with authMode := some (normalizeAuthMode am) }
  | none => st

/-- The `gcloud_project_id` block of `_import_imageai_auth`. -/
def importProjectId (st : AppConfig) (src : ImageAIConfig) : AppConfig :=
  match src.gcloudProjectId with
  | some v =>
      if optTruthy st.gcloudProjectId then st
      else { st with gcloudProjectId := some v }
  | none => st

/-- The `gcloud_auth_validated` block of `_import_imageai_auth`. -/
def importAuthValidated (st : AppConfig) (src : ImageAIConfig) : AppConfig :=
  match src.gcloudAuthValidated with
  | some b =>
      if optBoolTruthy st.gcloudAuthValidated then st
      else { st with gcloudAuthValidated := some b }
  | none => st

/-- `ConfigManager._import_imageai_auth`, given an already-located parsed
source document: import provider credentials, then `auth_mode` (normalized),
`gcloud_project_id` and `gcloud_auth_validated`, each only when the local
value is falsy.  (`imported`/`save()` only persist the in-memory state and are
not part of the state transformation.) -/
def importOnce (st : AppConfig) (src : ImageAIConfig) : AppConfig :=
  importAuthValidated
    (importProjectId
      (importAuthMode (src.providers.foldl importProviderStep st) src) src) src

/-- `RateLimiter` state: per-provider call timestamps (`_call_history`,
wall-clock seconds as rationals) and the `_limits` dict mapping a provider to
`{'calls': …, 'window': …}` (`none` = key absent). -/
structure RLState where
  callHistory : String → List ℚ
  limits : String → Option (Nat × Nat)

/-- The `_limits` dict as initialized by `RateLimiter.__init__`. -/
def initialLimits : String → Option (Nat × Nat) := fun p =>
  if p = "openai" then some (50, 60)
  else if p = "anthropic" then some (50, 60)
  else if p = "google" then some (60, 60)
  else if p = "gemini" then some (60, 60)
  else if p = "default" then some (100, 60)
  else none

/-- A fresh `RateLimiter`: empty call history, default limits. -/
def initialRLState : RLState :=
  { callHistory := fun _ => [], limits := initialLimits }

/-- `self._limits.get(provider, self._limits['default'])`.  The `"default"`
key is always present (set in `__init__`, and `set_limit` only adds keys), so
the final fallback `(100, 60)` is unreachable from reachable states; it is
there only to make the lookup total. -/
def lookupLimits (st : RLState) (p : String) : Nat × Nat :=
  match st.limits p with
  | some l => l
  | none => (st.limits "default").getD (100, 60)

/-- `RateLimiter.set_limit`. -/
def setLimit (st : RLState) (p : String) (calls window : Nat) : RLState :=
  { st with limits := fun q => if q = p then some (calls, window) else st.limits q }

/-- The pruning comprehension `[t for t in history if t > now - window]`. -/
def pruneList (l : List ℚ) (now : ℚ) (window : Nat) : List ℚ :=
  l.filter (fun t => now - (window : ℚ) < t)

/-- Python `min` over a list of timestamps; the `[]` case (which raises in
Python and is unreachable where the code calls `min`) is defaulted to `0`. -/
def listMin : List ℚ → ℚ
  | [] => 0
  | t :: ts => ts.foldl min t

/-- `RateLimiter.check_rate_limit`.  `now` is the `time.time()` read on entry;
`now2` is the `time.time()` read again after `time.sleep(wait_time)` and is
only consulted on the blocking at-limit path that actually sleeps. -/
def checkRateLimit (st : RLState) (p : String) (wait : Bool) (now now2 : ℚ) :
    Bool × RLState :=
  let lim := lookupLimits st p
  let pruned := pruneList (st.callHistory p) now lim.2
  if lim.1 ≤ pruned.length then
    if !wait then
      (false, { st with callHistory := fun q => if q = p then pruned else st.callHistory q })
    else
      let oldest := listMin pruned
      let waitTime := (lim.2 : ℚ) - (now - oldest) + 1 / 10
      if 0 < waitTime then
        let pruned2 := pruneList pruned now2 lim.2
        (true, { st with callHistory := fun q => if q = p then pruned2 ++ [now2] else st.callHistory q })
      else
        (true, { st with callHistory := fun q => if q = p then pruned ++ [now] else st.callHistory q })
  else
    (true, { st with callHistory := fun q => if q = p then pruned ++ [now] else st.callHistory q })

/-- `RateLimiter.get_remaining_calls`: prune, then report
`max_calls - len(history)` (a Python int, possibly negative) and
`max(0, window - (now - min(history)))` (`0` when the pruned history is
empty).  The pruning also mutates the stored history. -/
def getRemainingCalls (st : RLState) (p : String) (now : ℚ) :
    (Int × ℚ) × RLState :=
  let lim := lookupLimits st p
  let pruned := pruneList (st.callHistory p) now lim.2
  let remaining : Int := (lim.1 : Int) - (pruned.length : Int)
  let resetTime : ℚ :=
    if pruned.isEmpty then 0
    else (lim.2 : ℚ) - (now - listMin pruned)
  ((remaining, max 0 resetTime),
    { st with callHistory := fun q => if q = p then pruned else st.callHistory q })

/-- A history record: a JSON object with string values, in insertion order.
(The fields the claims touch — in particular `timestamp` — are strings in the
program.) -/
abbrev Entry : Type := List (String × String)

/-- `entry.get(k)`: the value of the first binding of `k` (dict keys are
unique, so "first" is exact). -/
def entryGet (e : Entry) (k : String) : Option String :=
  (List.find? (fun kv => kv.1 = k) e).map (fun kv => kv.2)

/-- `x.get("timestamp", "")` — the sort key used by `get_all_entries`. -/
def tsKey (e : Entry) : String := (entryGet e "timestamp").getD ""

/-- The timestamp injection in `add_entry`: `if "timestamp" not in entry:
entry["timestamp"] = datetime.now().isoformat()` (adds the key at the end of
the dict); `now` stands for the formatted current time. -/
def injectTimestamp (now : String) (e : Entry) : Entry :=
  if (entryGet e "timestamp").isSome then e else e ++ [("timestamp", now)]

/-- The backing JSONL file, one element per non-blank line: `some e` for a
line that `json.loads` parses to the record `e`, `none` for a malformed line
(blank lines are dropped by the `strip`/`if line` guard before this stage). -/
abbrev HistLog : Type := List (Option Entry)

/-- `HistoryManager.add_entry`: inject the timestamp if missing, then append
one JSON line to the file. -/
def addEntry (now : String) (e : Entry) (log : HistLog) : HistLog :=
  log ++ [some (injectTimestamp now e)]

/-- The comparison realizing `entries.sort(key=lambda x: x.get("timestamp",
""), reverse=True)`: `a` may precede `b` iff `a`'s key is ≥ `b`'s. -/
def tsGE (a b : Entry) : Prop := tsKey b ≤ tsKey a

instance : DecidableRel tsGE := fun a b => inferInstanceAs (Decidable (tsKey b ≤ tsKey a))

instance : IsTotal Entry tsGE := ⟨fun a b => le_total (tsKey b) (tsKey a)⟩

instance : IsTrans Entry tsGE := ⟨fun _ _ _ h1 h2 => le_trans h2 h1⟩

/-- `HistoryManager.get_all_entries`: parse every line, skipping malformed
ones; sort by timestamp, most recent first (Python's sort is stable, as is
`List.insertionSort`); then `if limit: entries = entries[:limit]` — a slice,
applied only when `limit` is truthy (not `None` and not `0`). -/
def getAllEntries (limit : Option Int) (log : HistLog) : List Entry :=
  let entries := log.filterMap id
  let sorted := List.insertionSort tsGE entries
  match limit with
  | some n =>
      if n = 0 then sorted
      else if 0 ≤ n then sorted.take n.toNat
      else sorted.take (sorted.length - (-n).toNat)
  | none => sorted

/-- `sorted(…)` over a Python set whose elements are those of `l`: the
duplicate-free list of `l`'s elements in increasing lexicographic order. -/
def sortedTagSet (l : List String) : List String :=
  List.insertionSort (· ≤ ·) l.dedup

/-- `Project.add_tags`: `tags` is the current metadata list, `ts` the added
tags; the result is `sorted(set(tags) ∪ set(ts))`. -/
def addTags (ts tags : List String) : List String :=
  sortedTagSet (tags ++ ts)

/-- `Project.remove_tags`: `sorted(set(tags) - set(ts))`. -/
def removeTags (ts tags : List String) : List String :=
  sortedTagSet (tags.filter (fun t => t ∉ ts))

example :
    let st : CredState :=
      { keyringAvailable := true
        ownVault := fun _ => none
        imageaiVault := fun q => if q = keyName "openai" then some "sib" else none
        providersCfg := fun q => if q = "openai" then some "file" else none }
    (getApiKey st "openai").1 = some "sib" := by decide

example :
    let st : CredState :=
      { keyringAvailable := true
        ownVault := fun _ => none
        imageaiVault := fun _ => none
        providersCfg := fun _ => none }
    (getApiKey (setApiKey st "OpenAI" "sk") "openai").1 = none := by decide

/-! ## Claim C1: credential resolution order -/

/-- A state exercising the resolution order: the key is present both in the
sibling (ImageAI) vault namespace and in the file-based provider config, and
absent from this application's own vault namespace. -/
def c1State : CredState :=
  { keyringAvailable := true
    ownVault := fun _ => none
    imageaiVault := fun q => if q = keyName "openai" then some "sibling-secret" else none
    providersCfg := fun q => if q = "openai" then some "file-secret" else none }

/-- C1 counterexample: with the secret present in both the file-based provider
config and the sibling vault namespace, `get` returns the sibling-vault value,
not the file value — so the file-based config is *not* consulted before the
sibling namespace, contradicting the claimed order (1) own vault, (2) file,
(3) sibling vault. -/
theorem C1_counterexample :
    c1State.providersCfg "openai" = some "file-secret" ∧
    (getApiKey c1State "openai").1 = some "sibling-secret" ∧
    (getApiKey c1State "openai").1 ≠ some "file-secret" := by
  refine ⟨rfl, by decide, by decide⟩

/-- The state `retrieve_key` leaves after migrating a sibling-namespace hit:
the key is re-stored under this application's own namespace. -/
def migrated (st : CredState) (p k : String) : CredState :=
  { st with ownVault := fun q => if q = keyName p then some k else st.ownVault q }

theorem retrieveKey_unavailable (st : CredState) (p : String)
    (hav : st.keyringAvailable = false) : retrieveKey st p = (none, st) := by
  simp [retrieveKey, hav]

theorem retrieveKey_own (st : CredState) (p : String) (hav : st.keyringAvailable = true)
    (hown : optTruthy (st.ownVault (keyName p)) = true) :
    retrieveKey st p = (st.ownVault (keyName p), st) := by
  simp [retrieveKey, hav, hown]

theorem retrieveKey_sibling (st : CredState) (p k : String) (hav : st.keyringAvailable = true)
    (hown : optTruthy (st.ownVault (keyName p)) = false)
    (hsib : st.imageaiVault (keyName p) = some k) (hk : k.isEmpty = false) :
    retrieveKey st p = (some k, migrated st p k) := by
  have h2 : optTruthy (some k) = true := by simp [optTruthy, hk]
  simp [retrieveKey, hav, hown, hsib, h2, storeKey, migrated]

theorem retrieveKey_miss (st : CredState) (p : String) (hav : st.keyringAvailable = true)
    (hown : optTruthy (st.ownVault (keyName p)) = false)
    (hsib : optTruthy (st.imageaiVault (keyName p)) = false) :
    retrieveKey st p = (none, st) := by
  simp [retrieveKey, hav, hown, hsib]

theorem getApiKey_of_retrieveKey_none (st : CredState) (p : String)
    (h : retrieveKey st p = (none, st)) : getApiKey st p = (st.providersCfg p, st) := by
  unfold getApiKey
  rw [h]
  cases hc : st.providersCfg p <;> simp [optTruthy, hc]

theorem getApiKey_own (st : CredState) (p : String) (hav : st.keyringAvailable = true)
    (hown : optTruthy (st.ownVault (keyName p)) = true) :
    getApiKey st p = (st.ownVault (keyName p), st) := by
  unfold getApiKey
  rw [retrieveKey_own st p hav hown]
  simp [hown]

theorem getApiKey_sibling (st : CredState) (p k : String) (hav : st.keyringAvailable = true)
    (hown : optTruthy (st.ownVault (keyName p)) = false)
    (hsib : st.imageaiVault (keyName p) = some k) (hk : k.isEmpty = false) :
    getApiKey st p = (some k, migrated st p k) := by
  unfold getApiKey
  rw [retrieveKey_sibling st p k hav hown hsib hk]
  simp [optTruthy, hk]

theorem getApiKey_fallback (st : CredState) (p : String)
    (h : st.keyringAvailable = false ∨
      (optTruthy (st.ownVault (keyName p)) = false ∧
        optTruthy (st.imageaiVault (keyName p)) = false)) :
    getApiKey st p = (st.providersCfg p, st) := by
  apply getApiKey_of_retrieveKey_none
  rcases h with hav | ⟨hown, hsib⟩
  · exact retrieveKey_unavailable st p hav
  · by_cases hav : st.keyringAvailable = true
    · exact retrieveKey_miss st p hav hown hsib
    · exact retrieveKey_unavailable st p (by simpa using hav)

/-- C1 (amended): `get` resolves in the order (1) this application's own
vault namespace; (2) the sibling application's vault namespace — and a secret
found there is immediately re-stored under this application's own namespace,
so a subsequent `get` finds it in step (1); (3) the file-based provider
config. -/
theorem C1_resolution_order (st : CredState) (p : String) :
    (st.keyringAvailable = true → optTruthy (st.ownVault (keyName p)) = true →
      getApiKey st p = (st.ownVault (keyName p), st)) ∧
    (∀ k, st.keyringAvailable = true → optTruthy (st.ownVault (keyName p)) = false →
      st.imageaiVault (keyName p) = some k → k.isEmpty = false →
      (getApiKey st p).1 = some k ∧
      ((getApiKey st p).2).ownVault (keyName p) = some k ∧
      getApiKey ((getApiKey st p).2) p = (some k, (getApiKey st p).2)) ∧
    ((st.keyringAvailable = false ∨
        (optTruthy (st.ownVault (keyName p)) = false ∧
          optTruthy (st.imageaiVault (keyName p)) = false)) →
      getApiKey st p = (st.providersCfg p, st)) := by
  refine ⟨fun hav hown => getApiKey_own st p hav hown, ?_, getApiKey_fallback st p⟩
  intro k hav hown hsib hk
  rw [getApiKey_sibling st p k hav hown hsib hk]
  have hmig : (migrated st p k).ownVault (keyName p) = some k := by simp [migrated]
  refine ⟨rfl, hmig, ?_⟩
  have : getApiKey (migrated st p k) p = ((migrated st p k).ownVault (keyName p), migrated st p k) :=
    getApiKey_own (migrated st p k) p hav (by simp [hmig, optTruthy, hk])
  rw [this, hmig]

/-- A state whose own vault namespace holds the key. -/
def c1OwnState : CredState :=
  { keyringAvailable := true
    ownVault := fun q => if q = keyName "openai" then some "own-secret" else none
    imageaiVault := fun _ => none
    providersCfg := fun _ => none }

/-- A state with no keyring, the key in the file-based provider config. -/
def c1FileState : CredState :=
  { keyringAvailable := false
    ownVault := fun _ => none
    imageaiVault := fun _ => none
    providersCfg := fun q => if q = "openai" then some "file-secret" else none }

theorem C1_resolution_order_witness :
    getApiKey c1OwnState "openai" = (c1OwnState.ownVault (keyName "openai"), c1OwnState) ∧
    (getApiKey c1State "openai").1 = some "sibling-secret" ∧
    getApiKey ((getApiKey c1State "openai").2) "openai" =
      (some "sibling-secret", (getApiKey c1State "openai").2) ∧
    getApiKey c1FileState "openai" = (c1FileState.providersCfg "openai", c1FileState) :=
  ⟨(C1_resolution_order c1OwnState "openai").1 rfl (by decide),
   ((C1_resolution_order c1State "openai").2.1 "sibling-secret" rfl (by decide) (by decide)
      (by decide)).1,
   ((C1_resolution_order c1State "openai").2.1 "sibling-secret" rfl (by decide) (by decide)
      (by decide)).2.2,
   (C1_resolution_order c1FileState "openai").2.2 (Or.inl rfl)⟩

/-! ## Claim C2: set/get round-trip and provider-ID case handling -/

/-- A fresh state: keyring present, nothing stored anywhere. -/
def c2Fresh : CredState :=
  { keyringAvailable := true
    ownVault := fun _ => none
    imageaiVault := fun _ => none
    providersCfg := fun _ => none }

/-- C2 counterexample: provider IDs are *not* lower-cased — from the empty
state, `set` for `"OpenAI"` followed by `get` for `"openai"` finds nothing,
while `get` for the identical spelling returns the secret. -/
theorem C2_counterexample :
    (getApiKey (setApiKey c2Fresh "OpenAI" "sk-test") "OpenAI").1 = some "sk-test" ∧
    (getApiKey (setApiKey c2Fresh "OpenAI" "sk-test") "openai").1 = none := by
  refine ⟨by decide, by decide⟩

theorem setApiKey_available (st : CredState) (p k : String)
    (hav : st.keyringAvailable = true) :
    setApiKey st p k =
      { st with ownVault := fun q => if q = keyName p then some k else st.ownVault q } := by
  simp [setApiKey, storeKey, hav]

theorem setApiKey_unavailable (st : CredState) (p k : String)
    (hav : st.keyringAvailable = false) :
    setApiKey st p k =
      { st with providersCfg := fun q => if q = p then some k else st.providersCfg q } := by
  simp [setApiKey, storeKey, hav]

/-- C2 (amended): for every provider string `p` and non-empty secret `s`,
after `set(p, s)` a `get` for the *identical* string `p` returns `s`.
Provider IDs are used verbatim (no lower-casing), so distinct case variants
address distinct entries — see the counterexample. -/
theorem C2_set_get (st : CredState) (p s : String) (hs : s.isEmpty = false) :
    (getApiKey (setApiKey st p s) p).1 = some s := by
  by_cases hav : st.keyringAvailable = true
  · set st' := setApiKey st p s with hst'
    have havail : st'.keyringAvailable = true := by
      rw [hst', setApiKey_available st p s hav]
      exact hav
    have hown : st'.ownVault (keyName p) = some s := by
      rw [hst', setApiKey_available st p s hav]
      simp
    rw [getApiKey_own st' p havail (by simp [hown, optTruthy, hs])]
    simp [hown]
  · have hav' : st.keyringAvailable = false := by simpa using hav
    set st' := setApiKey st p s with hst'
    have havail : st'.keyringAvailable = false := by
      rw [hst', setApiKey_unavailable st p s hav']
      exact hav'
    have hcfg : st'.providersCfg p = some s := by
      rw [hst', setApiKey_unavailable st p s hav']
      simp
    rw [getApiKey_fallback st' p (Or.inl havail)]
    simp [hcfg]

theorem C2_set_get_witness :
    ("sk-test" : String).isEmpty = false ∧
    (getApiKey (setApiKey c2Fresh "openai" "sk-test") "openai").1 = some "sk-test" :=
  ⟨by decide, C2_set_get c2Fresh "openai" "sk-test" (by decide)⟩

/-! ## Claim C6: `set` mutates exactly one storage location -/

/-- C6: `set` attempts the vault first; when the vault write succeeds the
file-based provider config is untouched (and the own-vault entry holds the
key); when it does not succeed, the vault is untouched and the key goes into
the file-based provider config. -/
theorem C6_set_single_location (st : CredState) (p k : String) :
    (st.keyringAvailable = true →
      (setApiKey st p k).providersCfg = st.providersCfg ∧
      (setApiKey st p k).ownVault (keyName p) = some k) ∧
    (st.keyringAvailable = false →
      (setApiKey st p k).ownVault = st.ownVault ∧
      (setApiKey st p k).providersCfg p = some k) := by
  constructor
  · intro hav
    rw [setApiKey_available st p k hav]
    simp
  · intro hav
    rw [setApiKey_unavailable st p k hav]
    simp

/-- A keyring-less variant of the fresh state. -/
def c2FreshNoKeyring : CredState :=
  { c2Fresh with keyringAvailable := false }

theorem C6_set_single_location_witness :
    ((setApiKey c2Fresh "openai" "sk").providersCfg = c2Fresh.providersCfg ∧
      (setApiKey c2Fresh "openai" "sk").ownVault (keyName "openai") = some "sk") ∧
    ((setApiKey c2FreshNoKeyring "openai" "sk").ownVault = c2FreshNoKeyring.ownVault ∧
      (setApiKey c2FreshNoKeyring "openai" "sk").providersCfg "openai" = some "sk") :=
  ⟨(C6_set_single_location c2Fresh "openai" "sk").1 rfl,
   (C6_set_single_location c2FreshNoKeyring "openai" "sk").2 rfl⟩

/-! ## Claim C7: malformed lines are skipped, valid lines all returned -/

/-- C7: `read_all` returns exactly the records parsed from the valid lines
(as a permutation — retrieval reorders by timestamp), so each malformed line
is skipped and contributes nothing; in particular a log with one malformed
line and two valid lines yields exactly two records, and `read_all` is total.
-/
theorem C7_read_all_skips_malformed (log : HistLog) :
    (getAllEntries none log).Perm (log.filterMap id) ∧
    (getAllEntries none log).length = (log.filterMap id).length := by
  have h : (getAllEntries none log).Perm (log.filterMap id) := by
    simpa [getAllEntries] using List.perm_insertionSort tsGE (log.filterMap id)
  exact ⟨h, h.length_eq⟩

/-! ## Claim C9: a zero limit means no truncation -/

/-- C9: `get_all_entries(limit=0)` returns everything, exactly as
`get_all_entries()` with no limit does, because `if limit:` is false for `0`.
-/
theorem C9_zero_limit_means_all (log : HistLog) :
    getAllEntries (some 0) log = getAllEntries none log := by
  simp [getAllEntries]

/-! ## Claim C8: append/read round-trip and timestamp ordering -/

/-- The head of the stable descending sort is a record whose timestamp is
strictly greater than that of every other record in the list. -/
theorem head_of_sorted_strict_max {l : List Entry} {e : Entry} (he : e ∈ l)
    (hmax : ∀ y ∈ l, y ≠ e → tsKey y < tsKey e) :
    (List.insertionSort tsGE l).head? = some e := by
  have hperm := List.perm_insertionSort tsGE l
  have hsorted := List.sorted_insertionSort tsGE l
  have hes : e ∈ List.insertionSort tsGE l := hperm.mem_iff.mpr he
  cases hs : List.insertionSort tsGE l with
  | nil => rw [hs] at hes; simp at hes
  | cons h t =>
    rw [hs] at hes hsorted hperm
    have hh : h ∈ l := hperm.mem_iff.mp (List.mem_cons_self h t)
    by_cases hhe : h = e
    · simp [hhe]
    · have h1 : tsKey h < tsKey e := hmax h hh hhe
      have het : e ∈ t := by
        rcases List.mem_cons.mp hes with h' | h'
        · exact absurd h'.symm hhe
        · exact h'
      have h2 : tsKey e ≤ tsKey h := List.rel_of_sorted_cons hsorted e het
      exact absurd h1 (not_lt.mpr h2)

/-- `injectTimestamp` always populates the `timestamp` field. -/
theorem injectTimestamp_isSome (now : String) (e : Entry) :
    (entryGet (injectTimestamp now e) "timestamp").isSome = true := by
  unfold injectTimestamp
  by_cases h : (entryGet e "timestamp").isSome = true
  · simp [h]
  · have hnone : entryGet e "timestamp" = none := by
      cases hc : entryGet e "timestamp"
      · rfl
      · rw [hc] at h
        simp at h
    simp [h, entryGet, List.find?_append]
    unfold entryGet at hnone
    cases hf : List.find? (fun kv => kv.1 = "timestamp") e
    · simp [List.find?]
    · rw [hf] at hnone
      simp at hnone

/-- An already-present record with timestamp `"t"`. -/
def c8E : Entry := [("timestamp", "t"), ("v", "old")]

/-- A record appended afterwards: same timestamp `"t"`, different payload. -/
def c8R : Entry := [("timestamp", "t"), ("v", "new")]

/-- C8 counterexample: an already-present record `c8E` with the *same*
timestamp as the appended record `c8R` — so no record is newer than `c8R`'s —
ends up first (the stable sort keeps earlier-appended records with equal keys
in front), so the first entry of `read_all` is not the appended record. -/
theorem C8_counterexample :
    (∀ e ∈ ([some c8E] : HistLog).filterMap id, tsKey e ≤ tsKey (injectTimestamp "x" c8R)) ∧
    (getAllEntries none (addEntry "x" c8R [some c8E])).head? = some c8E ∧
    c8E ≠ injectTimestamp "x" c8R := by
  refine ⟨?_, ?_, ?_⟩
  · intro e he
    simp [c8E] at he
    subst he
    simp [c8E, c8R, injectTimestamp, tsKey, entryGet, List.find?]
  · simp [getAllEntries, addEntry, injectTimestamp, entryGet, List.find?, c8E, c8R,
      List.insertionSort, List.orderedInsert, tsGE, tsKey]
  · simp [c8E, c8R, injectTimestamp, entryGet, List.find?]

/-- C8 (amended): for every record `R` and log state in which every parsed
record's timestamp is *strictly older* than `R`'s (possibly injected)
timestamp, appending `R` and reading back returns `R` — with its `timestamp`
field populated (injected when absent) — as the first, most recent entry, and
the returned sequence is ordered by descending timestamp string.  (The
original claim allowed an existing record with a timestamp *equal* to `R`'s;
the stable sort then keeps that earlier record first — see the
counterexample.) -/
theorem C8_append_read_roundtrip (log : HistLog) (now : String) (R : Entry)
    (hstrict : ∀ e ∈ log.filterMap id, tsKey e < tsKey (injectTimestamp now R)) :
    (entryGet (injectTimestamp now R) "timestamp").isSome = true ∧
    (getAllEntries none (addEntry now R log)).head? = some (injectTimestamp now R) ∧
    (getAllEntries none (addEntry now R log)).Sorted tsGE := by
  refine ⟨injectTimestamp_isSome now R, ?_, ?_⟩
  · have hparse : (addEntry now R log).filterMap id =
        log.filterMap id ++ [injectTimestamp now R] := by
      simp [addEntry, List.filterMap_append]
    have hhead :
        (List.insertionSort tsGE ((addEntry now R log).filterMap id)).head? =
          some (injectTimestamp now R) := by
      apply head_of_sorted_strict_max
      · rw [hparse]
        simp
      · intro y hy hne
        rw [hparse] at hy
        rcases List.mem_append.mp hy with h' | h'
        · exact hstrict y h'
        · simp at h'
          exact absurd h' hne
    simpa [getAllEntries] using hhead
  · simpa [getAllEntries] using
      List.sorted_insertionSort tsGE ((addEntry now R log).filterMap id)

/-- An older record for the C8 witness. -/
def c8Old : Entry := [("timestamp", "2024-01-01"), ("v", "old")]

/-- A timestamp-less record for the C8 witness (the timestamp is injected). -/
def c8New : Entry := [("p", "hello")]

theorem C8_append_read_roundtrip_witness :
    (∀ e ∈ ([some c8Old] : HistLog).filterMap id,
      tsKey e < tsKey (injectTimestamp "2024-06-01" c8New)) ∧
    (getAllEntries none (addEntry "2024-06-01" c8New [some c8Old])).head? =
      some (injectTimestamp "2024-06-01" c8New) := by
  have hstrict : ∀ e ∈ ([some c8Old] : HistLog).filterMap id,
      tsKey e < tsKey (injectTimestamp "2024-06-01" c8New) := by
    intro e he
    simp at he
    subst he
    simp [c8Old, c8New, injectTimestamp, tsKey, entryGet, List.find?]
    decide
  exact ⟨hstrict, (C8_append_read_roundtrip [some c8Old] "2024-06-01" c8New hstrict).2.1⟩

/-! ## Claim C10: tag operations keep tags sorted and duplicate-free -/

theorem sortedTagSet_sorted (l : List String) : (sortedTagSet l).Sorted (· ≤ ·) :=
  List.sorted_insertionSort _ _

theorem sortedTagSet_nodup (l : List String) : (sortedTagSet l).Nodup :=
  ((List.perm_insertionSort _ _).nodup_iff).mpr l.nodup_dedup

theorem sortedTagSet_mem (l : List String) (a : String) : a ∈ sortedTagSet l ↔ a ∈ l := by
  unfold sortedTagSet
  rw [(List.perm_insertionSort _ _).mem_iff, List.mem_dedup]

theorem sortedTagSet_eq_self {l : List String} (hs : l.Sorted (· ≤ ·)) (hn : l.Nodup) :
    sortedTagSet l = l := by
  unfold sortedTagSet
  rw [List.dedup_eq_self.mpr hn]
  exact hs.insertionSort_eq

theorem sortedTagSet_congr {l₁ l₂ : List String} (h : ∀ a, a ∈ l₁ ↔ a ∈ l₂) :
    sortedTagSet l₁ = sortedTagSet l₂ := by
  refine List.eq_of_perm_of_sorted (r := (· ≤ ·)) ?_ (sortedTagSet_sorted l₁)
    (sortedTagSet_sorted l₂)
  refine (List.perm_ext_iff_of_nodup (sortedTagSet_nodup l₁) (sortedTagSet_nodup l₂)).mpr ?_
  intro a
  rw [sortedTagSet_mem, sortedTagSet_mem]
  exact h a

/-- C10: after `add_tags` or `remove_tags` the tags list is sorted and
duplicate-free; `add_tags` with only already-present tags leaves a canonical
(sorted, duplicate-free) tags list unchanged; and both operations are
idempotent when repeated with the same arguments. -/
theorem C10_tags_invariants (ts cur : List String) :
    ((addTags ts cur).Sorted (· ≤ ·) ∧ (addTags ts cur).Nodup) ∧
    ((removeTags ts cur).Sorted (· ≤ ·) ∧ (removeTags ts cur).Nodup) ∧
    (cur.Sorted (· ≤ ·) → cur.Nodup → (∀ t ∈ ts, t ∈ cur) → addTags ts cur = cur) ∧
    addTags ts (addTags ts cur) = addTags ts cur ∧
    removeTags ts (removeTags ts cur) = removeTags ts cur := by
  refine ⟨⟨sortedTagSet_sorted _, sortedTagSet_nodup _⟩,
    ⟨sortedTagSet_sorted _, sortedTagSet_nodup _⟩, ?_, ?_, ?_⟩
  · intro hs hn hsub
    unfold addTags
    have hmem : ∀ a, a ∈ cur ++ ts ↔ a ∈ cur := by
      intro a
      constructor
      · intro h
        rcases List.mem_append.mp h with h' | h'
        · exact h'
        · exact hsub a h'
      · intro h
        exact List.mem_append.mpr (Or.inl h)
    rw [sortedTagSet_congr hmem]
    exact sortedTagSet_eq_self hs hn
  · unfold addTags
    apply sortedTagSet_congr
    intro a
    constructor
    · intro h
      rcases List.mem_append.mp h with h' | h'
      · rw [sortedTagSet_mem] at h'
        exact h'
      · exact List.mem_append.mpr (Or.inr h')
    · intro h
      exact List.mem_append.mpr (Or.inl ((sortedTagSet_mem _ a).mpr h))
  · unfold removeTags
    have hmem : ∀ a, a ∈ (sortedTagSet (cur.filter (fun t => t ∉ ts))).filter
        (fun t => t ∉ ts) ↔ a ∈ sortedTagSet (cur.filter (fun t => t ∉ ts)) := by
      intro a
      constructor
      · intro h
        exact (List.mem_filter.mp h).1
      · intro h
        refine List.mem_filter.mpr ⟨h, ?_⟩
        rw [sortedTagSet_mem] at h
        exact (List.mem_filter.mp h).2
    rw [sortedTagSet_congr hmem]
    exact sortedTagSet_eq_self (sortedTagSet_sorted _) (sortedTagSet_nodup _)

theorem C10_tags_invariants_witness :
    (["a", "b"] : List String).Sorted (· ≤ ·) ∧ (["a", "b"] : List String).Nodup ∧
    (∀ t ∈ (["a"] : List String), t ∈ (["a", "b"] : List String)) ∧
    addTags ["a"] ["a", "b"] = ["a", "b"] := by
  have hs : (["a", "b"] : List String).Sorted (· ≤ ·) := by
    simp [List.sorted_cons]
    decide
  have hn : (["a", "b"] : List String).Nodup := by decide
  have hsub : ∀ t ∈ (["a"] : List String), t ∈ (["a", "b"] : List String) := by decide
  exact ⟨hs, hn, hsub, (C10_tags_invariants ["a"] ["a", "b"]).2.2.1 hs hn hsub⟩

/-! ## Claim C4: bounds reported by `remaining` -/

/-- The state after one admitted call for provider `"x"` at time `0` on a
fresh limiter. -/
def c4AfterOneCall : RLState := (checkRateLimit initialRLState "x" false 0 0).2

/-- … after `set_limit("x", 0, 60)` has then lowered the quota below the one
recorded in-window call. -/
def c4Lowered : RLState := setLimit c4AfterOneCall "x" 0 60

theorem c4AfterOneCall_history : c4AfterOneCall.callHistory "x" = [0] := by
  have h1 : ¬ ("x" : String) = "openai" := by decide
  have h2 : ¬ ("x" : String) = "anthropic" := by decide
  have h3 : ¬ ("x" : String) = "google" := by decide
  have h4 : ¬ ("x" : String) = "gemini" := by decide
  have h5 : ¬ ("x" : String) = "default" := by decide
  have h6 : ¬ ("default" : String) = "openai" := by decide
  have h7 : ¬ ("default" : String) = "anthropic" := by decide
  have h8 : ¬ ("default" : String) = "google" := by decide
  have h9 : ¬ ("default" : String) = "gemini" := by decide
  norm_num [c4AfterOneCall, checkRateLimit, initialRLState, lookupLimits, initialLimits,
    pruneList, List.filter, h1, h2, h3, h4, h5, h6, h7, h8, h9]

/-- C4 counterexample: the sequence "admit once for provider x, then
set_limit(x, 0, 60)" is reachable, and `remaining` then reports the negative
count `0 - 1 = -1` — the code returns `max_calls - len(history)` without
clamping at zero (only the reset time is clamped). -/
theorem C4_counterexample :
    ((getRemainingCalls c4Lowered "x" 0).1).1 = -1 ∧
    ((getRemainingCalls c4Lowered "x" 0).1).1 < 0 := by
  have hh : c4Lowered.callHistory "x" = [0] := by
    have := c4AfterOneCall_history
    simpa [c4Lowered, setLimit] using this
  have hl : lookupLimits c4Lowered "x" = (0, 60) := by
    norm_num [c4Lowered, setLimit, lookupLimits]
  constructor <;>
    norm_num [getRemainingCalls, hl, hh, pruneList, List.filter, listMin]

theorem foldl_min_mem (l : List ℚ) (a : ℚ) : l.foldl min a = a ∨ l.foldl min a ∈ l := by
  induction l generalizing a with
  | nil => exact Or.inl rfl
  | cons x xs ih =>
    rw [List.foldl_cons]
    rcases ih (min a x) with h | h
    · rcases min_choice a x with hm | hm
      · exact Or.inl (h.trans hm)
      · exact Or.inr (by rw [h, hm]; exact List.mem_cons_self x xs)
    · exact Or.inr (List.mem_cons_of_mem x h)

theorem listMin_mem {l : List ℚ} (h : l ≠ []) : listMin l ∈ l := by
  cases l with
  | nil => exact absurd rfl h
  | cons t ts =>
    have hdef : listMin (t :: ts) = ts.foldl min t := rfl
    rw [hdef]
    rcases foldl_min_mem ts t with h' | h'
    · rw [h']
      exact List.mem_cons_self t ts
    · exact List.mem_cons_of_mem t h'

/-- C4 (amended): `remaining`'s reset time is never negative, is `0` when no
call is recorded, and — provided no recorded timestamp lies in the future —
never exceeds the provider's configured window.  The count equals
`max_calls` minus the number of in-window calls; it is non-negative whenever
that number does not exceed `max_calls` (in particular when no `set_limit`
has lowered the quota below the recorded calls), but it can go negative after
such a lowering — see the counterexample. -/
theorem C4_remaining_bounds (st : RLState) (p : String) (now : ℚ)
    (hpast : ∀ t ∈ st.callHistory p, t ≤ now)
    (hcount : (pruneList (st.callHistory p) now (lookupLimits st p).2).length ≤
      (lookupLimits st p).1) :
    0 ≤ ((getRemainingCalls st p now).1).1 ∧
    0 ≤ ((getRemainingCalls st p now).1).2 ∧
    ((getRemainingCalls st p now).1).2 ≤ ((lookupLimits st p).2 : ℚ) ∧
    (st.callHistory p = [] → ((getRemainingCalls st p now).1).2 = 0) := by
  refine ⟨?_, ?_, ?_, ?_⟩
  · simp only [getRemainingCalls]
    omega
  · simp only [getRemainingCalls]
    exact le_max_left 0 _
  · simp only [getRemainingCalls]
    cases hemp : (pruneList (st.callHistory p) now (lookupLimits st p).2).isEmpty with
    | false =>
      have hne : pruneList (st.callHistory p) now (lookupLimits st p).2 ≠ [] := by
        simpa [List.isEmpty_iff] using hemp
      have hmem := listMin_mem hne
      have hmemh : listMin (pruneList (st.callHistory p) now (lookupLimits st p).2) ∈
          st.callHistory p := List.mem_of_mem_filter hmem
      have hle : listMin (pruneList (st.callHistory p) now (lookupLimits st p).2) ≤ now :=
        hpast _ hmemh
      simp [hemp]
      linarith
    | true => simp [hemp]
  · intro hnil
    simp [getRemainingCalls, pruneList, hnil]

/-- A reachable state with two in-window calls under the default quota. -/
def c4WitState : RLState :=
  { callHistory := fun q => if q = "x" then [1, 2] else []
    limits := initialLimits }

theorem C4_remaining_bounds_witness :
    (∀ t ∈ c4WitState.callHistory "x", t ≤ (3 : ℚ)) ∧
    (pruneList (c4WitState.callHistory "x") 3 (lookupLimits c4WitState "x").2).length ≤
      (lookupLimits c4WitState "x").1 ∧
    0 ≤ ((getRemainingCalls c4WitState "x" 3).1).1 ∧
    0 ≤ ((getRemainingCalls c4WitState "x" 3).1).2 ∧
    ((getRemainingCalls c4WitState "x" 3).1).2 ≤ ((lookupLimits c4WitState "x").2 : ℚ) := by
  have hpast : ∀ t ∈ c4WitState.callHistory "x", t ≤ (3 : ℚ) := by
    intro t ht
    simp [c4WitState] at ht
    rcases ht with h | h <;> rw [h] <;> norm_num
  have hcount : (pruneList (c4WitState.callHistory "x") 3
      (lookupLimits c4WitState "x").2).length ≤ (lookupLimits c4WitState "x").1 := by
    have hl : lookupLimits c4WitState "x" = (100, 60) := by decide
    rw [hl]
    norm_num [c4WitState, pruneList, List.filter]
  have hmain := C4_remaining_bounds c4WitState "x" 3 hpast hcount
  exact ⟨hpast, hcount, hmain.1, hmain.2.1, hmain.2.2.1⟩

/-! ## Claim C5: sliding-window admission -/

theorem length_filter_lt_of_mem {α : Type} (P : α → Bool) (l : List α) (a : α)
    (ha : a ∈ l) (hPa : P a = false) : (l.filter P).length < l.length := by
  induction l with
  | nil => simp at ha
  | cons x xs ih =>
    rcases List.mem_cons.mp ha with h | h
    · subst h
      rw [List.filter_cons, hPa]
      simp only [List.length_cons]
      exact Nat.lt_succ_of_le (List.length_filter_le _ _)
    · cases hPx : P x with
      | false =>
        rw [List.filter_cons, hPx]
        simp only [List.length_cons]
        exact Nat.lt_succ_of_le (List.length_filter_le _ _)
      | true =>
        rw [List.filter_cons, hPx]
        simp only [List.length_cons, if_pos]
        exact Nat.succ_lt_succ (ih h)

/-- C5: with quota `(N, W) = lookupLimits st p`: (a) when the pruned window
already holds at least `N` calls, a non-blocking `admit` returns `false` and
records no new timestamp (the stored history is exactly the pruned list);
(b) when the window held exactly `N` calls and `W` seconds have elapsed since
the oldest of them, pruning drops that oldest call and a non-blocking `admit`
returns `true` again. -/
theorem C5_window_admission (st : RLState) (p : String) (now now2 : ℚ) :
    ((lookupLimits st p).1 ≤
        (pruneList (st.callHistory p) now (lookupLimits st p).2).length →
      (checkRateLimit st p false now now2).1 = false ∧
      ((checkRateLimit st p false now now2).2).callHistory p =
        pruneList (st.callHistory p) now (lookupLimits st p).2) ∧
    (∀ t0 : ℚ, (st.callHistory p).length = (lookupLimits st p).1 →
      t0 ∈ st.callHistory p → (∀ t ∈ st.callHistory p, t0 ≤ t) →
      t0 + ((lookupLimits st p).2 : ℚ) ≤ now →
      (checkRateLimit st p false now now2).1 = true) := by
  constructor
  · intro hat
    unfold checkRateLimit
    simp only [hat, if_pos, Bool.not_false, if_true]
    constructor
    · simp [hat]
    · simp [hat]
  · intro t0 hlen hmem hmin helapsed
    have hfail : (fun t => decide (now - ((lookupLimits st p).2 : ℚ) < t)) t0 = false := by
      simp only [decide_eq_false_iff_not, not_lt]
      linarith
    have hlt : (pruneList (st.callHistory p) now (lookupLimits st p).2).length <
        (st.callHistory p).length :=
      length_filter_lt_of_mem _ _ t0 hmem hfail
    have hnot : ¬ ((lookupLimits st p).1 ≤
        (pruneList (st.callHistory p) now (lookupLimits st p).2).length) := by
      rw [← hlen]
      omega
    unfold checkRateLimit
    simp [hnot]

/-- A limiter state at its limit: quota `(2, 60)` for provider `"y"`, two
in-window calls at times `0` and `1`. -/
def c5WitState : RLState :=
  { callHistory := fun q => if q = "y" then [0, 1] else []
    limits := fun q => if q = "y" then some (2, 60) else initialLimits q }

theorem C5_window_admission_witness :
    ((lookupLimits c5WitState "y").1 ≤
        (pruneList (c5WitState.callHistory "y") 2 (lookupLimits c5WitState "y").2).length ∧
      (checkRateLimit c5WitState "y" false 2 0).1 = false ∧
      ((checkRateLimit c5WitState "y" false 2 0).2).callHistory "y" =
        pruneList (c5WitState.callHistory "y") 2 (lookupLimits c5WitState "y").2) ∧
    ((c5WitState.callHistory "y").length = (lookupLimits c5WitState "y").1 ∧
      (0 : ℚ) ∈ c5WitState.callHistory "y" ∧
      (0 : ℚ) + ((lookupLimits c5WitState "y").2 : ℚ) ≤ 61 ∧
      (checkRateLimit c5WitState "y" false 61 0).1 = true) := by
  have hl : lookupLimits c5WitState "y" = (2, 60) := by decide
  have hh : c5WitState.callHistory "y" = [0, 1] := by
    simp [c5WitState]
  have hat : (lookupLimits c5WitState "y").1 ≤
      (pruneList (c5WitState.callHistory "y") 2 (lookupLimits c5WitState "y").2).length := by
    rw [hl, hh]
    norm_num [pruneList, List.filter]
  have hlen : (c5WitState.callHistory "y").length = (lookupLimits c5WitState "y").1 := by
    rw [hl, hh]
    norm_num
  have hmem : (0 : ℚ) ∈ c5WitState.callHistory "y" := by
    rw [hh]
    norm_num
  have hmin : ∀ t ∈ c5WitState.callHistory "y", (0 : ℚ) ≤ t := by
    intro t ht
    rw [hh] at ht
    rcases List.mem_cons.mp ht with h | h
    · rw [h]
    · simp at h
      rw [h]
      norm_num
  have helap : (0 : ℚ) + ((lookupLimits c5WitState "y").2 : ℚ) ≤ 61 := by
    rw [hl]
    norm_num
  have hpart1 := (C5_window_admission c5WitState "y" 2 0).1 hat
  have hpart2 := (C5_window_admission c5WitState "y" 61 0).2 0 hlen hmem hmin helap
  exact ⟨⟨hat, hpart1.1, hpart1.2⟩, hlen, hmem, helap, hpart2⟩

/-! ## Claim C3: the import merger -/

theorem keyName_inj {p q : String} (h : keyName p = keyName q) : p = q := by
  apply String.ext
  have h2 := congrArg String.data h
  simp only [keyName, String.data_append] at h2
  exact List.append_cancel_right h2

theorem optTruthy_iff (o : Option String) :
    optTruthy o = true ↔ ∃ k, o = some k ∧ k.isEmpty = false := by
  cases o with
  | none => simp [optTruthy]
  | some s => simp [optTruthy]

/-- The condition under which `retrieve_key` migrates a sibling-namespace
entry — the only way `get_api_key` mutates state. -/
def migCond (c : CredState) (p : String) : Prop :=
  c.keyringAvailable = true ∧ optTruthy (c.ownVault (keyName p)) = false ∧
    optTruthy (c.imageaiVault (keyName p)) = true

theorem getApiKey_no_mig (c : CredState) (p : String) (h : ¬ migCond c p) :
    (getApiKey c p).2 = c := by
  by_cases hav : c.keyringAvailable = true
  · by_cases hown : optTruthy (c.ownVault (keyName p)) = true
    · simp [getApiKey_own c p hav hown]
    · have hown' : optTruthy (c.ownVault (keyName p)) = false := by simpa using hown
      by_cases hsib : optTruthy (c.imageaiVault (keyName p)) = true
      · exact absurd ⟨hav, hown', hsib⟩ h
      · simp [getApiKey_fallback c p (Or.inr ⟨hown', by simpa using hsib⟩)]
  · simp [getApiKey_fallback c p (Or.inl (by simpa using hav))]

theorem getApiKey_mig (c : CredState) (p : String) (h : migCond c p) :
    ∃ k, c.imageaiVault (keyName p) = some k ∧ k.isEmpty = false ∧
      getApiKey c p = (some k, migrated c p k) := by
  obtain ⟨hav, hown, hsib⟩ := h
  obtain ⟨k, hk1, hk2⟩ := (optTruthy_iff _).mp hsib
  exact ⟨k, hk1, hk2, getApiKey_sibling c p k hav hown hk1 hk2⟩

theorem getApiKey_idem (c : CredState) (p : String) :
    getApiKey ((getApiKey c p).2) p = ((getApiKey c p).1, (getApiKey c p).2) := by
  by_cases hmig : migCond c p
  · obtain ⟨k, hk1, hk2, heq⟩ := getApiKey_mig c p hmig
    rw [heq]
    show getApiKey (migrated c p k) p = (some k, migrated c p k)
    have hown : optTruthy ((migrated c p k).ownVault (keyName p)) = true := by
      simp [migrated, optTruthy, hk2]
    have hav2 : (migrated c p k).keyringAvailable = true := hmig.1
    rw [getApiKey_own (migrated c p k) p hav2 hown]
    simp [migrated]
  · have h2 := getApiKey_no_mig c p hmig
    calc getApiKey ((getApiKey c p).2) p = getApiKey c p := by rw [h2]
    _ = ((getApiKey c p).1, (getApiKey c p).2) := rfl

theorem getApiKey_after_set (c : CredState) (p k : String) (hk : k.isEmpty = false) :
    getApiKey (setApiKey c p k) p = (some k, setApiKey c p k) := by
  by_cases hav : c.keyringAvailable = true
  · have hs := setApiKey_available c p k hav
    have hav' : (setApiKey c p k).keyringAvailable = true := by rw [hs]; exact hav
    have hown : (setApiKey c p k).ownVault (keyName p) = some k := by rw [hs]; simp
    rw [getApiKey_own _ p hav' (by simp [hown, optTruthy, hk]), hown]
  · have hav' : c.keyringAvailable = false := by simpa using hav
    have hs := setApiKey_unavailable c p k hav'
    have hav2 : (setApiKey c p k).keyringAvailable = false := by rw [hs]; exact hav'
    have hcfg : (setApiKey c p k).providersCfg p = some k := by rw [hs]; simp
    rw [getApiKey_fallback _ p (Or.inl hav2), hcfg]

/-- Agreement of two credential states on every component that `get_api_key`
and `set_api_key` for provider `p` read or write. -/
def credAgree (c c' : CredState) (p : String) : Prop :=
  c'.keyringAvailable = c.keyringAvailable ∧
  c'.ownVault (keyName p) = c.ownVault (keyName p) ∧
  c'.imageaiVault (keyName p) = c.imageaiVault (keyName p) ∧
  c'.providersCfg p = c.providersCfg p

theorem migCond_agree {c c' : CredState} {p : String} (h : credAgree c c' p) :
    migCond c' p ↔ migCond c p := by
  unfold migCond
  rw [h.1, h.2.1, h.2.2.1]

theorem getApiKey_val_agree {c c' : CredState} {p : String} (h : credAgree c c' p) :
    (getApiKey c' p).1 = (getApiKey c p).1 := by
  obtain ⟨h1, h2, h3, h4⟩ := h
  by_cases hav : c.keyringAvailable = true
  · by_cases hown : optTruthy (c.ownVault (keyName p)) = true
    · rw [getApiKey_own c p hav hown,
        getApiKey_own c' p (by rw [h1]; exact hav) (by rw [h2]; exact hown)]
      exact h2
    · have hown' : optTruthy (c.ownVault (keyName p)) = false := by simpa using hown
      by_cases hsib : optTruthy (c.imageaiVault (keyName p)) = true
      · obtain ⟨k, hk1, hk2⟩ := (optTruthy_iff _).mp hsib
        rw [getApiKey_sibling c p k hav hown' hk1 hk2,
          getApiKey_sibling c' p k (by rw [h1]; exact hav) (by rw [h2]; exact hown')
            (by rw [h3]; exact hk1) hk2]
      · have hsib' : optTruthy (c.imageaiVault (keyName p)) = false := by simpa using hsib
        rw [getApiKey_fallback c p (Or.inr ⟨hown', hsib'⟩),
          getApiKey_fallback c' p (Or.inr ⟨by rw [h2]; exact hown', by rw [h3]; exact hsib'⟩)]
        exact h4
  · have hav' : c.keyringAvailable = false := by simpa using hav
    rw [getApiKey_fallback c p (Or.inl hav'),
      getApiKey_fallback c' p (Or.inl (by rw [h1]; exact hav'))]
    exact h4

theorem getApiKey_state_local (c : CredState) (p : String) :
    ((getApiKey c p).2).keyringAvailable = c.keyringAvailable ∧
    ((getApiKey c p).2).imageaiVault = c.imageaiVault ∧
    ((getApiKey c p).2).providersCfg = c.providersCfg ∧
    ∀ q, q ≠ keyName p → ((getApiKey c p).2).ownVault q = c.ownVault q := by
  by_cases hmig : migCond c p
  · obtain ⟨k, _, _, heq⟩ := getApiKey_mig c p hmig
    rw [heq]
    refine ⟨rfl, rfl, rfl, fun q hq => ?_⟩
    simp [migrated, hq]
  · rw [getApiKey_no_mig c p hmig]
    exact ⟨rfl, rfl, rfl, fun q _ => rfl⟩

theorem setApiKey_state_local (c : CredState) (p k : String) :
    (setApiKey c p k).keyringAvailable = c.keyringAvailable ∧
    (setApiKey c p k).imageaiVault = c.imageaiVault ∧
    (∀ q, q ≠ keyName p → (setApiKey c p k).ownVault q = c.ownVault q) ∧
    (∀ q, q ≠ p → (setApiKey c p k).providersCfg q = c.providersCfg q) := by
  by_cases hav : c.keyringAvailable = true
  · rw [setApiKey_available c p k hav]
    exact ⟨rfl, rfl, fun q hq => by simp [hq], fun q _ => rfl⟩
  · rw [setApiKey_unavailable c p k (by simpa using hav)]
    exact ⟨rfl, rfl, fun q _ => rfl, fun q hq => by simp [hq]⟩

theorem credStep_agree (c : CredState) (y : String × ProviderCfg) {p : String}
    (hne : p ≠ y.1) : credAgree c (importProviderCredStep c y) p := by
  have hkn : keyName p ≠ keyName y.1 := fun h => hne (keyName_inj h)
  obtain ⟨g1, g2, g3, g4⟩ := getApiKey_state_local c y.1
  have hag1 : credAgree c ((getApiKey c y.1).2) p :=
    ⟨g1, g4 _ hkn, by rw [g2], by rw [g3]⟩
  unfold importProviderCredStep
  by_cases ht : optTruthy (getApiKey c y.1).1 = true
  · simpa [ht] using hag1
  · have hf : optTruthy (getApiKey c y.1).1 = false := by simpa using ht
    rcases hapi : y.2.apiKey with _ | key
    · simpa [hf, hapi] using hag1
    · by_cases hke : key.isEmpty = true
      · simpa [hf, hapi, hke] using hag1
      · have hke' : key.isEmpty = false := by simpa using hke
        obtain ⟨s1, s2, s3, s4⟩ := setApiKey_state_local ((getApiKey c y.1).2) y.1 key
        have hag2 : credAgree c (setApiKey ((getApiKey c y.1).2) y.1 key) p :=
          ⟨s1.trans hag1.1, (s3 _ hkn).trans hag1.2.1,
            (congrFun s2 _).trans hag1.2.2.1, (s4 _ hne).trans hag1.2.2.2⟩
        simpa [hf, hapi, hke'] using hag2

theorem credStep_idem (c : CredState) (x : String × ProviderCfg) :
    importProviderCredStep (importProviderCredStep c x) x = importProviderCredStep c x := by
  by_cases ht : optTruthy (getApiKey c x.1).1 = true
  · have hs : importProviderCredStep c x = (getApiKey c x.1).2 := by
      unfold importProviderCredStep
      simp [ht]
    rw [hs]
    unfold importProviderCredStep
    rw [getApiKey_idem c x.1]
    simp [ht]
  · have hf : optTruthy (getApiKey c x.1).1 = false := by simpa using ht
    rcases hapi : x.2.apiKey with _ | key
    · have hs : importProviderCredStep c x = (getApiKey c x.1).2 := by
        unfold importProviderCredStep
        simp [hf, hapi]
      rw [hs]
      unfold importProviderCredStep
      rw [getApiKey_idem c x.1]
      simp [hf, hapi]
    · by_cases hke : key.isEmpty = true
      · have hs : importProviderCredStep c x = (getApiKey c x.1).2 := by
          unfold importProviderCredStep
          simp [hf, hapi, hke]
        rw [hs]
        unfold importProviderCredStep
        rw [getApiKey_idem c x.1]
        simp [hf, hapi, hke]
      · have hke' : key.isEmpty = false := by simpa using hke
        have hs : importProviderCredStep c x = setApiKey ((getApiKey c x.1).2) x.1 key := by
          unfold importProviderCredStep
          simp [hf, hapi, hke']
        rw [hs]
        unfold importProviderCredStep
        rw [getApiKey_after_set ((getApiKey c x.1).2) x.1 key hke']
        simp [optTruthy, hke']

theorem credStep_fixed_agree {c c' : CredState} {x : String × ProviderCfg}
    (hag : credAgree c c' x.1) (hfix : importProviderCredStep c x = c) :
    importProviderCredStep c' x = c' := by
  by_cases hmig : migCond c x.1
  · obtain ⟨k, hk1, hk2, heq⟩ := getApiKey_mig c x.1 hmig
    have htr : optTruthy (getApiKey c x.1).1 = true := by
      rw [heq]
      simp [optTruthy, hk2]
    have hs : importProviderCredStep c x = (getApiKey c x.1).2 := by
      unfold importProviderCredStep
      simp [htr]
    rw [heq] at hs
    rw [hs] at hfix
    have hcontra := congrArg (fun s => s.ownVault (keyName x.1)) hfix
    simp only [migrated] at hcontra
    simp at hcontra
    have hown := hmig.2.1
    rw [← hcontra] at hown
    simp [optTruthy, hk2] at hown
  · have hnomut : (getApiKey c x.1).2 = c := getApiKey_no_mig c x.1 hmig
    have hmig' : ¬ migCond c' x.1 := fun h => hmig ((migCond_agree hag).mp h)
    have hnomut' : (getApiKey c' x.1).2 = c' := getApiKey_no_mig c' x.1 hmig'
    have hval : (getApiKey c' x.1).1 = (getApiKey c x.1).1 := getApiKey_val_agree hag
    by_cases ht : optTruthy (getApiKey c x.1).1 = true
    · unfold importProviderCredStep
      simp [hval, ht, hnomut']
    · have hf : optTruthy (getApiKey c x.1).1 = false := by simpa using ht
      rcases hapi : x.2.apiKey with _ | key
      · unfold importProviderCredStep
        simp [hval, hf, hapi, hnomut']
      · by_cases hke : key.isEmpty = true
        · unfold importProviderCredStep
          simp [hval, hf, hapi, hke, hnomut']
        · have hke' : key.isEmpty = false := by simpa using hke
          exfalso
          have hs : importProviderCredStep c x = setApiKey ((getApiKey c x.1).2) x.1 key := by
            unfold importProviderCredStep
            simp [hf, hapi, hke']
          rw [hnomut] at hs
          rw [hs] at hfix
          by_cases hav : c.keyringAvailable = true
          · have h2 := setApiKey_available c x.1 key hav
            rw [h2] at hfix
            have hcontra := congrArg (fun s => s.ownVault (keyName x.1)) hfix
            simp at hcontra
            have hvown : (getApiKey c x.1).1 = c.ownVault (keyName x.1) := by
              rw [getApiKey_own c x.1 hav (by simp [← hcontra, optTruthy, hke'])]
            rw [hvown, ← hcontra] at hf
            simp [optTruthy, hke'] at hf
          · have hav' : c.keyringAvailable = false := by simpa using hav
            have h2 := setApiKey_unavailable c x.1 key hav'
            rw [h2] at hfix
            have hcontra := congrArg (fun s => s.providersCfg x.1) hfix
            simp at hcontra
            have hvcfg : (getApiKey c x.1).1 = c.providersCfg x.1 := by
              rw [getApiKey_fallback c x.1 (Or.inl hav')]
            rw [hvcfg, ← hcontra] at hf
            simp [optTruthy, hke'] at hf

theorem credFold_preserves_fixed (l : List (String × ProviderCfg)) (c : CredState)
    (x : String × ProviderCfg) (hne : ∀ z ∈ l, z.1 ≠ x.1)
    (hfix : importProviderCredStep c x = c) :
    importProviderCredStep (l.foldl importProviderCredStep c) x =
      l.foldl importProviderCredStep c := by
  induction l generalizing c with
  | nil => exact hfix
  | cons z t ih =>
    rw [List.foldl_cons]
    refine ih (importProviderCredStep c z) (fun w hw => hne w (List.mem_cons_of_mem z hw)) ?_
    exact credStep_fixed_agree
      (credStep_agree c z (Ne.symm (hne z (List.mem_cons_self z t)))) hfix

theorem credFold_all_fixed (l : List (String × ProviderCfg)) (c : CredState)
    (hnodup : (l.map Prod.fst).Nodup) :
    ∀ x ∈ l, importProviderCredStep (l.foldl importProviderCredStep c) x =
      l.foldl importProviderCredStep c := by
  induction l generalizing c with
  | nil => intro x hx; simp at hx
  | cons y t ih =>
    intro x hx
    rw [List.foldl_cons]
    have hhead : y.1 ∉ t.map Prod.fst := (List.nodup_cons.mp hnodup).1
    have htail : (t.map Prod.fst).Nodup := (List.nodup_cons.mp hnodup).2
    rcases List.mem_cons.mp hx with hxy | hxt
    · subst hxy
      refine credFold_preserves_fixed t (importProviderCredStep c x) x ?_ (credStep_idem c x)
      intro z hz hzx
      exact hhead (hzx ▸ List.mem_map_of_mem Prod.fst hz)
    · exact ih (importProviderCredStep c y) htail x hxt

theorem credFold_of_all_fixed (l : List (String × ProviderCfg)) (c : CredState)
    (h : ∀ x ∈ l, importProviderCredStep c x = c) :
    l.foldl importProviderCredStep c = c := by
  induction l with
  | nil => rfl
  | cons y t ih =>
    rw [List.foldl_cons, h y (List.mem_cons_self y t)]
    exact ih (fun x hx => h x (List.mem_cons_of_mem y hx))

theorem credFold_idem (l : List (String × ProviderCfg)) (c : CredState)
    (hnodup : (l.map Prod.fst).Nodup) :
    l.foldl importProviderCredStep (l.foldl importProviderCredStep c) =
      l.foldl importProviderCredStep c :=
  credFold_of_all_fixed l _ (credFold_all_fixed l c hnodup)

theorem credStep_get_val (c : CredState) (y : String × ProviderCfg) (p : String)
    (htr : optTruthy (getApiKey c p).1 = true) :
    (getApiKey (importProviderCredStep c y) p).1 = (getApiKey c p).1 := by
  by_cases hpy : p = y.1
  · rw [hpy] at htr ⊢
    have hs : importProviderCredStep c y = (getApiKey c y.1).2 := by
      unfold importProviderCredStep
      simp [htr]
    rw [hs, getApiKey_idem c y.1]
  · exact getApiKey_val_agree (credStep_agree c y hpy)

theorem credFold_get_val (l : List (String × ProviderCfg)) (c : CredState) (p : String)
    (htr : optTruthy (getApiKey c p).1 = true) :
    (getApiKey (l.foldl importProviderCredStep c) p).1 = (getApiKey c p).1 := by
  induction l generalizing c with
  | nil => rfl
  | cons y t ih =>
    rw [List.foldl_cons]
    have h1 := credStep_get_val c y p htr
    have htr' : optTruthy (getApiKey (importProviderCredStep c y) p).1 = true := by
      rw [h1]
      exact htr
    rw [ih (importProviderCredStep c y) htr', h1]

theorem foldl_step_eq (l : List (String × ProviderCfg)) (st : AppConfig) :
    l.foldl importProviderStep st =
      { st with cred := l.foldl importProviderCredStep st.cred } := by
  induction l generalizing st with
  | nil => rfl
  | cons y t ih =>
    rw [List.foldl_cons, List.foldl_cons, ih]
    rfl

/-- The field transformer common to the three auth-field import blocks:
copy (a function of) the source value only when the local value is falsy. -/
def fieldUpdate (srcv : Option String) (f : String → String) (v : Option String) :
    Option String :=
  match srcv with
  | some s => if optTruthy v then v else some (f s)
  | none => v

/-- The boolean-field variant (`gcloud_auth_validated`). -/
def boolFieldUpdate (srcv : Option Bool) (v : Option Bool) : Option Bool :=
  match srcv with
  | some b => if optBoolTruthy v then v else some b
  | none => v

theorem importAuthMode_eq (st : AppConfig) (src : ImageAIConfig) :
    importAuthMode st src =
      { st with authMode := fieldUpdate src.authMode normalizeAuthMode st.authMode } := by
  unfold importAuthMode fieldUpdate
  cases src.authMode with
  | none => rfl
  | some am =>
    by_cases h : optTruthy st.authMode = true
    · simp [h]
    · simp [h]

theorem importProjectId_eq (st : AppConfig) (src : ImageAIConfig) :
    importProjectId st src =
      { st with gcloudProjectId := fieldUpdate src.gcloudProjectId id st.gcloudProjectId } := by
  unfold importProjectId fieldUpdate
  cases src.gcloudProjectId with
  | none => rfl
  | some v =>
    by_cases h : optTruthy st.gcloudProjectId = true
    · simp [h]
    · simp [h]

theorem importAuthValidated_eq (st : AppConfig) (src : ImageAIConfig) :
    importAuthValidated st src =
      { st with gcloudAuthValidated :=
          boolFieldUpdate src.gcloudAuthValidated st.gcloudAuthValidated } := by
  unfold importAuthValidated boolFieldUpdate
  cases src.gcloudAuthValidated with
  | none => rfl
  | some b =>
    by_cases h : optBoolTruthy st.gcloudAuthValidated = true
    · simp [h]
    · simp [h]

theorem importOnce_eq (st : AppConfig) (src : ImageAIConfig) :
    importOnce st src =
      { cred := src.providers.foldl importProviderCredStep st.cred
        authMode := fieldUpdate src.authMode normalizeAuthMode st.authMode
        gcloudProjectId := fieldUpdate src.gcloudProjectId id st.gcloudProjectId
        gcloudAuthValidated :=
          boolFieldUpdate src.gcloudAuthValidated st.gcloudAuthValidated } := by
  unfold importOnce
  rw [foldl_step_eq, importAuthMode_eq, importProjectId_eq, importAuthValidated_eq]

theorem fieldUpdate_idem (srcv : Option String) (f : String → String) (v : Option String) :
    fieldUpdate srcv f (fieldUpdate srcv f v) = fieldUpdate srcv f v := by
  unfold fieldUpdate
  cases srcv with
  | none => rfl
  | some s =>
    by_cases h : optTruthy v = true
    · simp [h]
    · simp only [h, Bool.false_eq_true, if_neg, ite_false]
      by_cases h2 : optTruthy (some (f s)) = true
      · simp [h, h2]
      · simp [h, h2]

theorem boolFieldUpdate_idem (srcv : Option Bool) (v : Option Bool) :
    boolFieldUpdate srcv (boolFieldUpdate srcv v) = boolFieldUpdate srcv v := by
  unfold boolFieldUpdate
  cases srcv with
  | none => rfl
  | some b =>
    by_cases h : optBoolTruthy v = true
    · simp [h]
    · by_cases h2 : optBoolTruthy (some b) = true
      · simp [h, h2]
      · simp [h, h2]

theorem fieldUpdate_no_overwrite (srcv : Option String) (f : String → String)
    (v : Option String) (h : optTruthy v = true) : fieldUpdate srcv f v = v := by
  unfold fieldUpdate
  cases srcv with
  | none => rfl
  | some s => simp [h]

theorem boolFieldUpdate_no_overwrite (srcv : Option Bool) (v : Option Bool)
    (h : optBoolTruthy v = true) : boolFieldUpdate srcv v = v := by
  unfold boolFieldUpdate
  cases srcv with
  | none => rfl
  | some b => simp [h]

/-- A local config whose `gcloud_auth_validated` has been locally set to
`False` (a present but falsy value). -/
def c3CexState : AppConfig :=
  { cred := { keyringAvailable := true
              ownVault := fun _ => none
              imageaiVault := fun _ => none
              providersCfg := fun _ => none }
    authMode := some "gcloud"
    gcloudProjectId := some "p"
    gcloudAuthValidated := some false }

/-- A source document whose `gcloud_auth_validated` is `True`. -/
def c3CexSrc : ImageAIConfig :=
  { providers := []
    authMode := none
    gcloudProjectId := none
    gcloudAuthValidated := some true }

/-- C3 counterexample: the guard is `if not self.config.get(...)` — Python
truthiness, not key presence — so a locally-set `gcloud_auth_validated =
False` *is* overwritten by a source value `True`: the import does overwrite a
locally-set value when that value is falsy, contradicting "never overwrites a
locally-set value, even if the source has a different value". -/
theorem C3_counterexample :
    c3CexState.gcloudAuthValidated = some false ∧
    (importOnce c3CexState c3CexSrc).gcloudAuthValidated = some true ∧
    (importOnce c3CexState c3CexSrc).gcloudAuthValidated ≠
      c3CexState.gcloudAuthValidated := by
  refine ⟨rfl, by decide, by decide⟩

/-- C3 (amended): the one-shot import is idempotent — running it twice with
the same source document (a dict, so its provider keys are distinct) produces
exactly the state of running it once — and it never deletes and never
overwrites a locally-set *truthy* value of any field in its fixed set
(`auth_mode`, `gcloud_project_id`, `gcloud_auth_validated`, each provider's
resolvable credential).  "Has a value" is Python truthiness, which is what
every guard in the code tests: a present but falsy local value (`False`, an
empty string) is treated as absent and is overwritten — see the
counterexample. -/
theorem C3_import_idempotent_no_overwrite (st : AppConfig) (src : ImageAIConfig)
    (hnodup : (src.providers.map Prod.fst).Nodup) :
    importOnce (importOnce st src) src = importOnce st src ∧
    (optTruthy st.authMode = true → (importOnce st src).authMode = st.authMode) ∧
    (optTruthy st.gcloudProjectId = true →
      (importOnce st src).gcloudProjectId = st.gcloudProjectId) ∧
    (optBoolTruthy st.gcloudAuthValidated = true →
      (importOnce st src).gcloudAuthValidated = st.gcloudAuthValidated) ∧
    (∀ p, optTruthy (getApiKey st.cred p).1 = true →
      (getApiKey (importOnce st src).cred p).1 = (getApiKey st.cred p).1) := by
  refine ⟨?_, ?_, ?_, ?_, ?_⟩
  · rw [importOnce_eq st src, importOnce_eq]
    simp only [AppConfig.mk.injEq]
    exact ⟨credFold_idem src.providers st.cred hnodup,
      fieldUpdate_idem src.authMode normalizeAuthMode st.authMode,
      fieldUpdate_idem src.gcloudProjectId id st.gcloudProjectId,
      boolFieldUpdate_idem src.gcloudAuthValidated st.gcloudAuthValidated⟩
  · intro h
    rw [importOnce_eq st src]
    exact fieldUpdate_no_overwrite src.authMode normalizeAuthMode st.authMode h
  · intro h
    rw [importOnce_eq st src]
    exact fieldUpdate_no_overwrite src.gcloudProjectId id st.gcloudProjectId h
  · intro h
    rw [importOnce_eq st src]
    exact boolFieldUpdate_no_overwrite src.gcloudAuthValidated st.gcloudAuthValidated h
  · intro p h
    rw [importOnce_eq st src]
    exact credFold_get_val src.providers st.cred p h

/-- A local config with every field locally set (truthy) for the C3 witness. -/
def c3State : AppConfig :=
  { cred := { keyringAvailable := true
              ownVault := fun q => if q = keyName "openai" then some "own-key" else none
              imageaiVault := fun _ => none
              providersCfg := fun _ => none }
    authMode := some "gcloud"
    gcloudProjectId := some "my-proj"
    gcloudAuthValidated := some true }

/-- A source document offering different values for every field. -/
def c3Src : ImageAIConfig :=
  { providers := [("openai", ⟨some "imported-key"⟩), ("anthropic", ⟨some "a-key"⟩)]
    authMode := some "API Key"
    gcloudProjectId := some "other-proj"
    gcloudAuthValidated := some false }

theorem C3_import_idempotent_no_overwrite_witness :
    (c3Src.providers.map Prod.fst).Nodup ∧
    optTruthy c3State.authMode = true ∧
    optTruthy c3State.gcloudProjectId = true ∧
    optBoolTruthy c3State.gcloudAuthValidated = true ∧
    optTruthy (getApiKey c3State.cred "openai").1 = true ∧
    importOnce (importOnce c3State c3Src) c3Src = importOnce c3State c3Src ∧
    (importOnce c3State c3Src).authMode = c3State.authMode ∧
    (importOnce c3State c3Src).gcloudProjectId = c3State.gcloudProjectId ∧
    (importOnce c3State c3Src).gcloudAuthValidated = c3State.gcloudAuthValidated ∧
    (getApiKey (importOnce c3State c3Src).cred "openai").1 =
      (getApiKey c3State.cred "openai").1 := by
  have hnodup : (c3Src.providers.map Prod.fst).Nodup := by decide
  have ham : optTruthy c3State.authMode = true := by decide
  have hpid : optTruthy c3State.gcloudProjectId = true := by decide
  have hval : optBoolTruthy c3State.gcloudAuthValidated = true := by decide
  have hkey : optTruthy (getApiKey c3State.cred "openai").1 = true := by decide
  have hmain := C3_import_idempotent_no_overwrite c3State c3Src hnodup
  exact ⟨hnodup, ham, hpid, hval, hkey, hmain.1, hmain.2.1 ham, hmain.2.2.1 hpid,
    hmain.2.2.2.1 hval, hmain.2.2.2.2 "openai" hkey⟩
